import Mathlib

/-!
Verification of the Medicare Advantage data-processing helpers
(`functions.py`): CSV readers with sentinel handling, month loaders with a
de-duplicating left join, and the premium clean/merge pipeline.

Tables are shallowly embedded as lists of typed rows; a missing value
(pandas `NaN`) is `Option.none`.  Floating-point cells are modelled as
`Option Rat` (all values the claims touch are exact decimals).  File
reading is modelled by passing the already-read table to a loader, except
for the encoding fallback, which is modelled over an abstract
per-encoding reader.
-/

namespace MAData

/-! ## Cell-level reading: missing-value sentinels

`pandas.read_csv` treats a fixed default list of tokens as missing; the
`na_values` keyword argument adds further tokens to that list
(`keep_default_na` is left at its default `True` throughout the source).
-/

/-- The default missing-value tokens of `pandas.read_csv`. -/
def pandasDefaultNa : List String :=
  ["", "#N/A", "#N/A N/A", "#NA", "-1.#IND", "-1.#QNAN", "-NaN", "-nan",
   "1.#IND", "1.#QNAN", "<NA>", "N/A", "NA", "NULL", "NaN", "None",
   "n/a", "nan", "null"]

/-- `read_contract` passes no `na_values`, so only the defaults apply. -/
def contractNaValues : List String := pandasDefaultNa

/-- `read_enroll` passes `na_values="*"`, adding `*` to the defaults. -/
def enrollNaValues : List String := "*" :: pandasDefaultNa

/-- `read_service_area` passes `na_values="*"`, adding `*` to the defaults. -/
def serviceAreaNaValues : List String := "*" :: pandasDefaultNa

/-- `read_penetration` passes `na_values=["", "NA", "*", "-", "--"]`,
added to the defaults. -/
def penetrationNaValues : List String :=
  ["", "NA", "*", "-", "--"] ++ pandasDefaultNa

/-- Reading one raw CSV cell of a `str`-typed column: a token on the
missing-value list becomes missing, anything else is kept verbatim. -/
def applyNa (naValues : List String) (s : String) : Option String :=
  if s ∈ naValues then none else some s

/-! ## Numeric coercion (`pd.to_numeric(..., errors="coerce")`)

A decimal-literal parser: optional sign, digits, optional fractional
part.  A string that does not parse yields `none` (pandas: `NaN`). -/

/-- Digits of a string as a natural number, `none` on a non-digit or on
the empty string. -/
def digitsToNat : List Char → Option Nat
  | [] => none
  | [c] => if c.isDigit then some (c.toNat - '0'.toNat) else none
  | c :: cs =>
    if c.isDigit then
      (digitsToNat cs).map (fun n => (c.toNat - '0'.toNat) * 10 ^ cs.length + n)
    else none

/-- Parse an unsigned decimal literal: `"12"`, `"12.5"`, `"12."`,
`".5"` (exponent notation, which never occurs in these files, is not
modelled). -/
def parseUnsignedDecimal (cs : List Char) : Option Rat :=
  match cs.splitOn '.' with
  | [intPart] => (digitsToNat intPart).map (fun n => (n : Rat))
  | [intPart, fracPart] =>
    match intPart.isEmpty, fracPart.isEmpty with
    | true, true => none
    | false, true => (digitsToNat intPart).map (fun n => (n : Rat))
    | true, false =>
      (digitsToNat fracPart).map
        (fun f => (f : Rat) / ((10 : Rat) ^ fracPart.length))
    | false, false =>
      match digitsToNat intPart, digitsToNat fracPart with
      | some n, some f =>
        some ((n : Rat) + (f : Rat) / ((10 : Rat) ^ fracPart.length))
      | _, _ => none
  | _ => none

/-- Parse a decimal literal with an optional leading sign. -/
def parseDecimal (s : String) : Option Rat :=
  match s.data with
  | '-' :: rest => (parseUnsignedDecimal rest).map (fun q => -q)
  | '+' :: rest => parseUnsignedDecimal rest
  | cs => parseUnsignedDecimal cs

/-- `pd.to_numeric(x, errors="coerce")` on an already-missing cell stays
missing; otherwise parse, and a parse failure becomes missing. -/
def toNumericCoerce (x : Option String) : Option Rat :=
  x.bind parseDecimal

/-! ## `read_penetration` numeric cleanup

The three columns `eligibles`, `enrolled`, `penetration` are read with
`dtype=str`, then `df[col].str.replace(",", "").str.replace("%", "")`
is fed to `pd.to_numeric(..., errors="coerce")`. -/

/-- Python `s.replace(c, "")` for a one-character pattern: remove every
occurrence of the character. -/
def removeChar (c : Char) (s : String) : String :=
  ⟨s.data.filter (fun x => x != c)⟩

/-- Remove every comma, then every percent sign (Python `str.replace`
replaces all occurrences). -/
def stripCommaPercent (s : String) : String :=
  removeChar '%' (removeChar ',' s)

/-- The full per-cell pipeline for the three numeric penetration columns:
sentinel mapping at read time, then strip and coerce. -/
def penNumericCell (raw : String) : Option Rat :=
  toNumericCoerce ((applyNa penetrationNaValues raw).map stripCommaPercent)

/-! ## `read_service_area` partial-flag column

After reading (a `str` column subject to the sentinel list), the source
applies `df["partial"].map({"TRUE": True, "FALSE": False})`; a value not
a key of the dict (including a missing value) becomes missing. -/

/-- `Series.map` with the dict `{"TRUE": True, "FALSE": False}`: a
value that is not literally a key of the dict (including a missing
value) becomes missing. -/
def partialMap : Option String → Option Bool
  | some s =>
    if s = "TRUE" then some true
    else if s = "FALSE" then some false
    else none
  | none => none

/-- The full per-cell pipeline for the `partial` column of
`read_service_area`. -/
def saPartialCell (raw : String) : Option Bool :=
  partialMap (applyNa serviceAreaNaValues raw)

/-! ## Encoding fallback (`_read_csv_with_fallback`)

`pd.read_csv` is abstracted as a function from the chosen encoding and
the (unchanged) parsing options to a result; the `try/except` catches
exactly `UnicodeDecodeError`. -/

/-- The encodings an abstract reader can be asked for; `named` stands
for any encoding other than the two the source mentions. -/
inductive Encoding where
  | utf8
  | latin1
  | named (s : String)
deriving DecidableEq, Repr

/-- Errors `pd.read_csv` can raise: a `UnicodeDecodeError` (the only one
the source catches) or anything else (file missing, parser error, ...). -/
inductive ReadError where
  | unicodeDecodeError
  | otherError (msg : String)
deriving DecidableEq, Repr

/-- `_read_csv_with_fallback`: try UTF-8; on a `UnicodeDecodeError`
retry once with Latin-1 and the same options; any other error, and any
error of the retry, propagates. -/
def readCsvWithFallback {Opts Table : Type}
    (read : Encoding → Opts → Except ReadError Table) (opts : Opts) :
    Except ReadError Table :=
  match read .utf8 opts with
  | .ok t => .ok t
  | .error .unicodeDecodeError => read .latin1 opts
  | .error e => .error e

/-! ## Row types

One structure per table, mirroring the fixed column-name lists of the
readers.  A field holds `none` where pandas would hold `NaN`. -/

/-- A row of the contract table (`read_contract` column list). -/
structure ContractRow where
  contractid : Option String
  planid : Option Rat
  org_type : Option String
  plan_type : Option String
  partd : Option String
  snp : Option String
  eghp : Option String
  org_name : Option String
  org_marketing_name : Option String
  plan_name : Option String
  parent_org : Option String
  contract_date : Option String
deriving DecidableEq, Repr

/-- A row of the enrollment table (`read_enroll` column list). -/
structure EnrollRow where
  contractid : Option String
  planid : Option Rat
  ssa : Option Rat
  fips : Option Rat
  state : Option String
  county : Option String
  enrollment : Option Rat
deriving DecidableEq, Repr

/-- A row of `contract.merge(enroll, on=["contractid", "planid"],
how="left")`: the contract columns followed by the enrollment-only
columns. -/
structure MergedRow where
  contractid : Option String
  planid : Option Rat
  org_type : Option String
  plan_type : Option String
  partd : Option String
  snp : Option String
  eghp : Option String
  org_name : Option String
  org_marketing_name : Option String
  plan_name : Option String
  parent_org : Option String
  contract_date : Option String
  ssa : Option Rat
  fips : Option Rat
  state : Option String
  county : Option String
  enrollment : Option Rat
deriving DecidableEq, Repr

/-- A `load_month` output row: the merged columns plus the stamped
`month` and `year`. -/
structure LoadMonthRow extends MergedRow where
  month : Int
  year : Int
deriving DecidableEq, Repr

/-- The `(contractid, planid)` key of a contract row. -/
def contractKey (c : ContractRow) : Option String × Option Rat :=
  (c.contractid, c.planid)

/-- The `(contractid, planid)` key of an enrollment row. -/
def enrollKey (e : EnrollRow) : Option String × Option Rat :=
  (e.contractid, e.planid)

/-- The `(contractid, planid)` key of a merged row. -/
def mergedKey (r : MergedRow) : Option String × Option Rat :=
  (r.contractid, r.planid)

/-! ## `drop_duplicates(subset=key, keep="first")` -/

/-- Keep each row whose key has not been seen in an earlier row. -/
def dropDupFirstAux {α κ : Type} [DecidableEq κ] (key : α → κ)
    (seen : List κ) : List α → List α
  | [] => []
  | r :: rs =>
    if key r ∈ seen then dropDupFirstAux key seen rs
    else r :: dropDupFirstAux key (key r :: seen) rs

/-- `DataFrame.drop_duplicates(subset=key, keep="first")`: the first row
of each key in list order survives, later rows with an already-seen key
are dropped. -/
def dropDupFirst {α κ : Type} [DecidableEq κ] (key : α → κ)
    (l : List α) : List α :=
  dropDupFirstAux key [] l

/-! ## Left merge (`DataFrame.merge(..., how="left")`) -/

/-- Combine a contract row with one matching enrollment row. -/
def combineEnroll (c : ContractRow) (e : EnrollRow) : MergedRow :=
  { contractid := c.contractid, planid := c.planid, org_type := c.org_type,
    plan_type := c.plan_type, partd := c.partd, snp := c.snp, eghp := c.eghp,
    org_name := c.org_name, org_marketing_name := c.org_marketing_name,
    plan_name := c.plan_name, parent_org := c.parent_org,
    contract_date := c.contract_date,
    ssa := e.ssa, fips := e.fips, state := e.state, county := e.county,
    enrollment := e.enrollment }

/-- A contract row with no enrollment match: the enrollment-only columns
are all missing. -/
def unmatchedEnroll (c : ContractRow) : MergedRow :=
  { contractid := c.contractid, planid := c.planid, org_type := c.org_type,
    plan_type := c.plan_type, partd := c.partd, snp := c.snp, eghp := c.eghp,
    org_name := c.org_name, org_marketing_name := c.org_marketing_name,
    plan_name := c.plan_name, parent_org := c.parent_org,
    contract_date := c.contract_date,
    ssa := none, fips := none, state := none, county := none,
    enrollment := none }

/-- Pandas left merge on `(contractid, planid)`: each left row produces
one output row per matching right row, or a single row with missing
right-side columns when no right row matches. -/
def leftMerge (cs : List ContractRow) (es : List EnrollRow) :
    List MergedRow :=
  cs.flatMap fun c =>
    match es.filter (fun e => decide (enrollKey e = contractKey c)) with
    | [] => [unmatchedEnroll c]
    | ms => ms.map (combineEnroll c)

/-! ## Month loaders

File reading is modelled by passing the already-read table; the loader's
remaining work (de-duplication, join, stamping) is embedded as written.
`int(m)` is modelled by `pyInt`, since the month may be an `int` or a
`str`; a non-numeric string makes `int(m)` raise, modelled as `none`. -/

/-- A Python value passed for the month argument. -/
inductive PyVal where
  | int (i : Int)
  | str (s : String)
deriving DecidableEq, Repr

/-- Strip leading and trailing whitespace from a character list. -/
def stripWhitespace (cs : List Char) : List Char :=
  ((cs.dropWhile Char.isWhitespace).reverse.dropWhile Char.isWhitespace).reverse

/-- Python `int(...)` on a string: optional surrounding whitespace,
optional sign, decimal digits. -/
def pyIntOfString (s : String) : Option Int :=
  match stripWhitespace s.data with
  | '-' :: rest => (digitsToNat rest).map (fun n => -(n : Int))
  | '+' :: rest => (digitsToNat rest).map (fun n => (n : Int))
  | cs => (digitsToNat cs).map (fun n => (n : Int))

/-- Python `int(...)` on an `int` or `str` argument. -/
def pyInt : PyVal → Option Int
  | .int i => some i
  | .str s => pyIntOfString s

/-- The merge part of `load_month`: de-duplicate the contract table by
`(contractid, planid)` keeping the first occurrence, then left-join the
enrollment table onto it. -/
def loadMonthMerge (cs : List ContractRow) (es : List EnrollRow) :
    List MergedRow :=
  leftMerge (dropDupFirst contractKey cs) es

/-- `load_month`, from the two read tables: merge then stamp
`month = int(m)` and `year = y` onto every row. -/
def load_month (cs : List ContractRow) (es : List EnrollRow)
    (m : PyVal) (y : Int) : Option (List LoadMonthRow) :=
  (pyInt m).map fun mi =>
    (loadMonthMerge cs es).map
      (fun r => { toMergedRow := r, month := mi, year := y })

/-- A row of the service-area table (`read_service_area` column list);
`partialFlag` models the `partial` column, already mapped through
`{"TRUE": True, "FALSE": False}` by the reader. -/
structure ServiceAreaRow where
  contractid : Option String
  org_name : Option String
  org_type : Option String
  plan_type : Option String
  partialFlag : Option Bool
  eghp : Option String
  ssa : Option Rat
  fips : Option Rat
  county : Option String
  state : Option String
  notes : Option String
deriving DecidableEq, Repr

/-- A `load_month_sa` output row. -/
structure SaMonthRow extends ServiceAreaRow where
  month : Int
  year : Int
deriving DecidableEq, Repr

/-- `load_month_sa`, from the read service-area table: stamp
`month = int(m)` and `year = y`. -/
def load_month_sa (sa : List ServiceAreaRow) (m : PyVal) (y : Int) :
    Option (List SaMonthRow) :=
  (pyInt m).map fun mi =>
    sa.map (fun r => { toServiceAreaRow := r, month := mi, year := y })

/-- A row of the penetration table (`read_penetration` column list); all
columns are read with `dtype=str`, after which the three numeric-looking
columns are cleaned to numbers. -/
structure PenetrationRow where
  state : Option String
  county : Option String
  fips_state : Option String
  fips_cnty : Option String
  fips : Option String
  ssa_state : Option String
  ssa_cnty : Option String
  ssa : Option String
  eligibles : Option Rat
  enrolled : Option Rat
  penetration : Option Rat
deriving DecidableEq, Repr

/-- A `load_month_pen` output row. -/
structure PenMonthRow extends PenetrationRow where
  month : Int
  year : Int
deriving DecidableEq, Repr

/-- `load_month_pen`, from the read penetration table: stamp
`month = int(m)` and `year = y`. -/
def load_month_pen (pen : List PenetrationRow) (m : PyVal) (y : Int) :
    Option (List PenMonthRow) :=
  (pyInt m).map fun mi =>
    pen.map (fun r => { toPenetrationRow := r, month := mi, year := y })

/-! ## `mapd_clean_merge`

The main table is projected to `(contractid, planid, state, county,
premium)` and the secondary table to the same key columns plus five
premium/deductible fields; the projections are modelled as rows already
carrying exactly those columns.  The secondary table's `planid` may be
text and is coerced with `pd.to_numeric(..., errors="coerce")`. -/

/-- A (projected) row of the main premium table `ma_data`. -/
structure MaPremRow where
  contractid : Option String
  planid : Option Rat
  state : Option String
  county : Option String
  premium : Option Rat
deriving DecidableEq, Repr

/-- A (projected) row of the secondary premium table `mapd_data` as
supplied, `planid` still text. -/
structure MapdPremRawRow where
  contractid : Option String
  planid : Option String
  state : Option String
  county : Option String
  premium_partc : Option Rat
  premium_partd_basic : Option Rat
  premium_partd_supp : Option Rat
  premium_partd_total : Option Rat
  partd_deductible : Option Rat
deriving DecidableEq, Repr

/-- A secondary-table row after `planid` has been coerced to numeric. -/
structure MapdPremRow where
  contractid : Option String
  planid : Option Rat
  state : Option String
  county : Option String
  premium_partc : Option Rat
  premium_partd_basic : Option Rat
  premium_partd_supp : Option Rat
  premium_partd_total : Option Rat
  partd_deductible : Option Rat
deriving DecidableEq, Repr

/-- The shared key tuple type `(contractid, planid, state, county)`. -/
abbrev PremKey := Option String × Option Rat × Option String × Option String

/-- The key tuple of a main-table row. -/
def maKey (r : MaPremRow) : PremKey :=
  (r.contractid, r.planid, r.state, r.county)

/-- The key tuple of a (coerced) secondary-table row. -/
def mapdKey (r : MapdPremRow) : PremKey :=
  (r.contractid, r.planid, r.state, r.county)

/-! ### `sort_values` on the key tuple

Ascending per-column comparison, missing values last (pandas default
`na_position="last"`); ties on one column fall through to the next. -/

/-- Code-point comparison of strings (Python string ordering). -/
def charListLe : List Char → List Char → Bool
  | [], _ => true
  | _ :: _, [] => false
  | a :: as, b :: bs =>
    if a == b then charListLe as bs else decide (a.toNat < b.toNat)

/-- `≤` on strings by code points. -/
def strLe (a b : String) : Bool := charListLe a.data b.data

/-- `≤` on rationals as a boolean. -/
def ratLe (a b : Rat) : Bool := decide (a ≤ b)

/-- Lift a column comparison to optional values, missing last. -/
def optLeBy (le : α → α → Bool) : Option α → Option α → Bool
  | none, none => true
  | none, some _ => false
  | some _, none => true
  | some a, some b => le a b

/-- Lexicographic comparison of key tuples, each column ascending with
missing values last. -/
def premKeyLe (x y : PremKey) : Bool :=
  if x.1 ≠ y.1 then optLeBy strLe x.1 y.1
  else if x.2.1 ≠ y.2.1 then optLeBy ratLe x.2.1 y.2.1
  else if x.2.2.1 ≠ y.2.2.1 then optLeBy strLe x.2.2.1 y.2.2.1
  else optLeBy strLe x.2.2.2 y.2.2.2

/-- Insert an element into a list sorted by `le`. -/
def insertSorted (le : α → α → Bool) (a : α) : List α → List α
  | [] => [a]
  | b :: bs => if le a b then a :: b :: bs else b :: insertSorted le a bs

/-- `DataFrame.sort_values` by a key, modelled as insertion sort. -/
def sortValuesBy (le : α → α → Bool) (l : List α) : List α :=
  l.foldr (insertSorted le) []

/-! ### Group-wise forward fill (`groupby(key)[cols].ffill()`)

`groupby` is called with its default `dropna=True`: a row whose key
tuple contains a missing component belongs to no group, and the grouped
`ffill` yields a missing value for every such row; assigning the result
back to the column therefore wipes even present cells on such rows.
For a row whose key tuple is complete, pandas fills a missing cell from
the nearest earlier row (in the current row order) of the same group
that has the cell present — rows with an incomplete key never supply a
fill value because their key tuple differs from every complete one. -/

/-- Whether a key tuple is complete (no missing component), i.e. whether
its row belongs to a group under `groupby(..., dropna=True)`. -/
def premKeyComplete (k : PremKey) : Bool :=
  k.1.isSome && k.2.1.isSome && k.2.2.1.isSome && k.2.2.2.isSome

/-- The value of column `get` in the last row of `prev` whose key is `k`
and whose cell is present; `none` if there is no such row. -/
def lastSomeBy {α β κ : Type} [DecidableEq κ]
    (get : α → Option β) (key : α → κ) (k : κ) : List α → Option β
  | [] => none
  | p :: ps =>
    match lastSomeBy get key k ps with
    | some v => some v
    | none => if key p = k then get p else none

/-- The filled value of column `get` for row `r` with preceding rows
`prev`: missing when `r`'s key tuple is incomplete (the row belongs to
no group under `dropna=True`); otherwise the cell itself when present,
else the nearest preceding value within `r`'s own group. -/
def fillVal {α β : Type} (get : α → Option β) (key : α → PremKey)
    (prev : List α) (r : α) : Option β :=
  if premKeyComplete (key r) then
    match get r with
    | some v => some v
    | none => lastSomeBy get key (key r) prev
  else none

/-- Map a per-row fill function over a list, feeding each row the list
of (original) rows preceding it. -/
def ffillFrom (fill : List α → α → α) (prev : List α) : List α → List α
  | [] => []
  | r :: rs => fill prev r :: ffillFrom fill (prev ++ [r]) rs

/-- Forward-fill the `premium` column of a main-table row. -/
def fillMaRow (prev : List MaPremRow) (r : MaPremRow) : MaPremRow :=
  { r with premium := fillVal (fun x => x.premium) maKey prev r }

/-- `groupby(key)["premium"].ffill()` over the whole main table,
assigned back to the `premium` column. -/
def ffillMa (rows : List MaPremRow) : List MaPremRow :=
  ffillFrom fillMaRow [] rows

/-- Forward-fill the five premium/deductible columns of a
secondary-table row, each column independently, with the same group
membership. -/
def fillMapdRow (prev : List MapdPremRow) (r : MapdPremRow) : MapdPremRow :=
  { r with
    premium_partc := fillVal (fun x => x.premium_partc) mapdKey prev r,
    premium_partd_basic := fillVal (fun x => x.premium_partd_basic) mapdKey prev r,
    premium_partd_supp := fillVal (fun x => x.premium_partd_supp) mapdKey prev r,
    premium_partd_total := fillVal (fun x => x.premium_partd_total) mapdKey prev r,
    partd_deductible := fillVal (fun x => x.partd_deductible) mapdKey prev r }

/-- `groupby(key)[fill_cols].ffill()` over the whole secondary table,
assigned back to the five columns. -/
def ffillMapd (rows : List MapdPremRow) : List MapdPremRow :=
  ffillFrom fillMapdRow [] rows

/-! ### The two cleaning pipelines and the outer join -/

/-- `ma_data.sort_values(["contractid", "planid", "state", "county"])`. -/
def sortedMa (rows : List MaPremRow) : List MaPremRow :=
  sortValuesBy (fun a b => premKeyLe (maKey a) (maKey b)) rows

/-- `mapd_data.sort_values(["contractid", "planid", "state", "county"])`. -/
def sortedMapd (rows : List MapdPremRow) : List MapdPremRow :=
  sortValuesBy (fun a b => premKeyLe (mapdKey a) (mapdKey b)) rows

/-- Cleaning of the main table: sort by the key tuple, forward-fill
`premium` within key groups, keep the first row of each key. -/
def cleanMa (rows : List MaPremRow) : List MaPremRow :=
  dropDupFirst maKey (ffillMa (sortedMa rows))

/-- `pd.to_numeric(mapd_data["planid"], errors="coerce")` on one row. -/
def coerceMapdPlanid (r : MapdPremRawRow) : MapdPremRow :=
  { contractid := r.contractid, planid := r.planid.bind parseDecimal,
    state := r.state, county := r.county,
    premium_partc := r.premium_partc,
    premium_partd_basic := r.premium_partd_basic,
    premium_partd_supp := r.premium_partd_supp,
    premium_partd_total := r.premium_partd_total,
    partd_deductible := r.partd_deductible }

/-- Cleaning of the secondary table: coerce `planid`, sort by the key
tuple, forward-fill the five fields within key groups, keep the first
row of each key. -/
def cleanMapd (rows : List MapdPremRawRow) : List MapdPremRow :=
  dropDupFirst mapdKey (ffillMapd (sortedMapd (rows.map coerceMapdPlanid)))

/-- A row of the outer join of the two cleaned tables, before the year
stamp. -/
structure PremMergeRow where
  contractid : Option String
  planid : Option Rat
  state : Option String
  county : Option String
  premium : Option Rat
  premium_partc : Option Rat
  premium_partd_basic : Option Rat
  premium_partd_supp : Option Rat
  premium_partd_total : Option Rat
  partd_deductible : Option Rat
deriving DecidableEq, Repr

/-- A `mapd_clean_merge` output row: the joined columns plus `year`. -/
structure PlanPremiumRow extends PremMergeRow where
  year : Int
deriving DecidableEq, Repr

/-- Combine matching rows of the two cleaned tables. -/
def combinePrem (a : MaPremRow) (b : MapdPremRow) : PremMergeRow :=
  { contractid := a.contractid, planid := a.planid, state := a.state,
    county := a.county, premium := a.premium,
    premium_partc := b.premium_partc,
    premium_partd_basic := b.premium_partd_basic,
    premium_partd_supp := b.premium_partd_supp,
    premium_partd_total := b.premium_partd_total,
    partd_deductible := b.partd_deductible }

/-- A main-table row with no secondary match: the five secondary fields
are missing. -/
def leftOnlyPrem (a : MaPremRow) : PremMergeRow :=
  { contractid := a.contractid, planid := a.planid, state := a.state,
    county := a.county, premium := a.premium,
    premium_partc := none, premium_partd_basic := none,
    premium_partd_supp := none, premium_partd_total := none,
    partd_deductible := none }

/-- A secondary-table row with no main match: the main-only `premium`
field is missing. -/
def rightOnlyPrem (b : MapdPremRow) : PremMergeRow :=
  { contractid := b.contractid, planid := b.planid, state := b.state,
    county := b.county, premium := none,
    premium_partc := b.premium_partc,
    premium_partd_basic := b.premium_partd_basic,
    premium_partd_supp := b.premium_partd_supp,
    premium_partd_total := b.premium_partd_total,
    partd_deductible := b.partd_deductible }

/-- Pandas outer merge on the key tuple: every left row appears (with
missing right columns if unmatched, once per match otherwise), and every
unmatched right row is appended with missing left columns. -/
def outerMergePrem (A : List MaPremRow) (B : List MapdPremRow) :
    List PremMergeRow :=
  (A.flatMap fun a =>
    match B.filter (fun b => decide (mapdKey b = maKey a)) with
    | [] => [leftOnlyPrem a]
    | ms => ms.map (combinePrem a))
  ++ (B.filter (fun b => decide (∀ a ∈ A, ¬ maKey a = mapdKey b))).map
      rightOnlyPrem

/-- `mapd_clean_merge`: clean both tables, outer-join them on the key
tuple, and stamp every row with the supplied year. -/
def mapd_clean_merge (ma : List MaPremRow) (mapd : List MapdPremRawRow)
    (y : Int) : List PlanPremiumRow :=
  (outerMergePrem (cleanMa ma) (cleanMapd mapd)).map
    (fun r => { toPremMergeRow := r, year := y })

/-! ## Object-level execution of `mapd_clean_merge`

To state that the function does not mutate its caller's tables, its body
is re-traced over an explicit heap of table objects.  A statement of the
form `df = expr` rebinds a local name to a freshly allocated object
(`df[[cols]]` and `.copy()` and `sort_values` and `drop_duplicates` and
`merge` all return new objects), while a statement of the form
`df[col] = expr` mutates, in place, the object the local name currently
points to. -/

/-- A heap cell: one pandas `DataFrame` of any of the shapes occurring
in `mapd_clean_merge`. -/
inductive PTable where
  | maT (rows : List MaPremRow)
  | mapdRawT (rows : List MapdPremRawRow)
  | mapdT (rows : List MapdPremRow)
  | premT (rows : List PremMergeRow)
  | planPremT (rows : List PlanPremiumRow)
deriving DecidableEq, Repr

/-- A heap of table objects with a bump allocator. -/
structure PyHeap where
  mem : Nat → Option PTable
  next : Nat

/-- Allocate a fresh object, returning the new heap and its address. -/
def halloc (h : PyHeap) (t : PTable) : PyHeap × Nat :=
  ({ mem := fun a => if a = h.next then some t else h.mem a,
     next := h.next + 1 }, h.next)

/-- Overwrite the object at an existing address (in-place mutation). -/
def hset (h : PyHeap) (a : Nat) (t : PTable) : PyHeap :=
  { h with mem := fun x => if x = a then some t else h.mem x }

/-- Read a main-premium table object. -/
def readMa (h : PyHeap) (a : Nat) : Option (List MaPremRow) :=
  match h.mem a with
  | some (.maT r) => some r
  | _ => none

/-- Read a raw secondary-premium table object. -/
def readMapdRaw (h : PyHeap) (a : Nat) : Option (List MapdPremRawRow) :=
  match h.mem a with
  | some (.mapdRawT r) => some r
  | _ => none

/-- Read a coerced secondary-premium table object. -/
def readMapd (h : PyHeap) (a : Nat) : Option (List MapdPremRow) :=
  match h.mem a with
  | some (.mapdT r) => some r
  | _ => none

/-- Read a pre-year-stamp merged table object. -/
def readPrem (h : PyHeap) (a : Nat) : Option (List PremMergeRow) :=
  match h.mem a with
  | some (.premT r) => some r
  | _ => none

/-- The body of `mapd_clean_merge`, statement by statement, over the
heap: `aMa` and `aMapd` are the caller's `ma_data` and `mapd_data`
objects.  Returns the final heap and the address of the returned
`plan_premiums` object.  The values the local names refer to are
threaded directly (they are determined by the straight-line code); the
heap tracks object identity: which statements allocate and which mutate
in place.  (The `[[cols]]` projection is the identity on the row values
because the modelled rows carry exactly the projected columns; it still
allocates.) -/
def mapdCleanMergeExec (h0 : PyHeap) (aMa aMapd : Nat) (y : Int) :
    Option (PyHeap × Nat) :=
  -- ma_data = ma_data[["contractid", "planid", "state", "county", "premium"]].copy()
  match readMa h0 aMa, readMapdRaw h0 aMapd with
  | some mas0, some mds0 =>
    let s1 := halloc h0 (.maT mas0)
    let s2 := halloc s1.1 (.maT mas0)
    -- ma_data = ma_data.sort_values(["contractid", "planid", "state", "county"])
    let s3 := halloc s2.1 (.maT (sortedMa mas0))
    -- ma_data["premium"] = ma_data.groupby([...])["premium"].ffill()
    let h4 := hset s3.1 s3.2 (.maT (ffillMa (sortedMa mas0)))
    -- ma_data = ma_data.drop_duplicates(subset=[...], keep="first")
    let s5 := halloc h4 (.maT (cleanMa mas0))
    -- mapd_data = mapd_data[[...]].copy()
    let s6 := halloc s5.1 (.mapdRawT mds0)
    let s7 := halloc s6.1 (.mapdRawT mds0)
    -- mapd_data["planid"] = pd.to_numeric(mapd_data["planid"], errors="coerce")
    let h8 := hset s7.1 s7.2 (.mapdT (mds0.map coerceMapdPlanid))
    -- mapd_data = mapd_data.sort_values([...])
    let s9 := halloc h8 (.mapdT (sortedMapd (mds0.map coerceMapdPlanid)))
    -- mapd_data[fill_cols] = mapd_data.groupby([...])[fill_cols].ffill()
    let h10 := hset s9.1 s9.2
      (.mapdT (ffillMapd (sortedMapd (mds0.map coerceMapdPlanid))))
    -- mapd_data = mapd_data.drop_duplicates(subset=[...], keep="first")
    let s11 := halloc h10 (.mapdT (cleanMapd mds0))
    -- plan_premiums = ma_data.merge(mapd_data, on=[...], how="outer")
    let s12 := halloc s11.1 (.premT (outerMergePrem (cleanMa mas0) (cleanMapd mds0)))
    -- plan_premiums["year"] = y
    let h13 := hset s12.1 s12.2 (.planPremT (mapd_clean_merge mas0 mds0 y))
    -- return plan_premiums
    some (h13, s12.2)
  | _, _ => none

/-- The contract columns of a merged row, as a contract row. -/
def contractOfMerged (o : MergedRow) : ContractRow :=
  { contractid := o.contractid, planid := o.planid, org_type := o.org_type,
    plan_type := o.plan_type, partd := o.partd, snp := o.snp,
    eghp := o.eghp, org_name := o.org_name,
    org_marketing_name := o.org_marketing_name, plan_name := o.plan_name,
    parent_org := o.parent_org, contract_date := o.contract_date }

/-! ## Demonstration data used by witnesses -/

/-- A concrete contract row. -/
def demoContractRow : ContractRow :=
  { contractid := some "H1234", planid := some 1, org_type := none,
    plan_type := none, partd := none, snp := none, eghp := none,
    org_name := none, org_marketing_name := none, plan_name := none,
    parent_org := none, contract_date := none }

/-- A concrete service-area row. -/
def demoServiceAreaRow : ServiceAreaRow :=
  { contractid := some "H1234", org_name := none, org_type := none,
    plan_type := none, partialFlag := some true, eghp := none,
    ssa := none, fips := none, county := none, state := none,
    notes := none }

/-- A concrete penetration row. -/
def demoPenetrationRow : PenetrationRow :=
  { state := some "AL", county := some "Autauga", fips_state := none,
    fips_cnty := none, fips := none, ssa_state := none, ssa_cnty := none,
    ssa := none, eligibles := some 100, enrolled := some 10,
    penetration := some 10 }

/-- Same `(contractid, planid)` key as `demoContractRow`, different
attributes: a duplicate key in file order. -/
def demoContractRowDup : ContractRow :=
  { demoContractRow with org_name := some "Duplicate Org" }

/-- A contract row with a second key, `planid = 2`. -/
def demoContractRowB : ContractRow :=
  { demoContractRow with planid := some 2 }

/-- An enrollment row matching `demoContractRow`'s key. -/
def demoEnrollRow : EnrollRow :=
  { contractid := some "H1234", planid := some 1, ssa := some 1000,
    fips := some 1001, state := some "AL", county := some "Autauga",
    enrollment := some 50 }

/-- A second enrollment row with the same `(contractid, planid)` key as
`demoEnrollRow` but another county. -/
def demoEnrollRow2 : EnrollRow :=
  { demoEnrollRow with county := some "Baldwin", enrollment := some 25 }

/-- An enrollment row for the second contract key, `planid = 2`. -/
def demoEnrollRowB : EnrollRow :=
  { demoEnrollRow with planid := some 2, enrollment := some 7 }

/-- A concrete main-premium row with key `(H1, 1, AL, Autauga)`. -/
def demoMaPremRow : MaPremRow :=
  { contractid := some "H1", planid := some 1, state := some "AL",
    county := some "Autauga", premium := some 100 }

/-- The same key as `demoMaPremRow` with a missing premium. -/
def demoMaPremRowNoPrem : MaPremRow :=
  { demoMaPremRow with premium := none }

/-- A row with an incomplete key tuple (`planid` missing) but a present
premium: under `dropna=True` it belongs to no group and the fill leaves
its premium missing. -/
def demoMaPremRowNoKey : MaPremRow :=
  { demoMaPremRow with planid := none }

/-- A concrete secondary-premium row matching `demoMaPremRow`'s key,
`planid` encoded as text. -/
def demoMapdRawRow : MapdPremRawRow :=
  { contractid := some "H1", planid := some "1", state := some "AL",
    county := some "Autauga", premium_partc := some 20,
    premium_partd_basic := some 30, premium_partd_supp := some 5,
    premium_partd_total := some 35, partd_deductible := some 0 }

/-- A secondary-premium row with a key (`planid = 2`) absent from the
main table. -/
def demoMapdRawRowB : MapdPremRawRow :=
  { demoMapdRawRow with planid := some "2" }

/-- A reader whose UTF-8 attempt raises a decode error and whose Latin-1
attempt raises a different (parser) error. -/
def fallbackDemoReader : Encoding → Unit → Except ReadError Nat
  | .utf8, _ => .error .unicodeDecodeError
  | .latin1, _ => .error (.otherError "parser error")
  | .named _, _ => .ok 0

/-- What C3 asserts of a forward fill: the filled table has the same
length and keys; a row whose key tuple has a missing component belongs
to no group (`dropna=True`) and its cell comes out missing; on a row
with a complete key tuple, a present cell is unchanged and a missing
cell either stays missing (when no earlier row of the same key group
has the cell present) or receives the value of the nearest preceding
row with the identical key tuple whose cell is present — never a value
from a different key group. -/
def FillsOnlyWithinGroup {α β : Type} (get : α → Option β)
    (key : α → PremKey) (s filled : List α) : Prop :=
  filled.length = s.length ∧
  ∀ (i : Nat) (r r' : α), s.get? i = some r → filled.get? i = some r' →
    key r' = key r ∧
    (premKeyComplete (key r) = false → get r' = none) ∧
    (premKeyComplete (key r) = true →
      ((get r).isSome → get r' = get r) ∧
      (get r = none →
        ((get r' = none ∧
          ∀ (j : Nat) (r₀ : α), j < i → s.get? j = some r₀ →
            key r₀ = key r → get r₀ = none) ∨
         (∃ (j : Nat) (r₀ : α), j < i ∧ s.get? j = some r₀ ∧
           key r₀ = key r ∧ get r₀ = get r' ∧ (get r₀).isSome ∧
           ∀ (l : Nat) (r₁ : α), j < l → l < i → s.get? l = some r₁ →
             key r₁ = key r → get r₁ = none))))

/-- A concrete two-object heap: the caller's `ma_data` at address 0 and
`mapd_data` at address 1. -/
def demoHeap : PyHeap :=
  { mem := fun a =>
      if a = 0 then some (.maT [demoMaPremRow])
      else if a = 1 then some (.mapdRawT [demoMapdRawRow]) else none,
    next := 2 }

/-! ## Properties of `dropDupFirst` -/

theorem mem_of_mem_dropDupFirstAux {α κ : Type} [DecidableEq κ] (key : α → κ) :
    ∀ (seen : List κ) (l : List α) (x : α),
      x ∈ dropDupFirstAux key seen l → x ∈ l := by
  intro seen l
  induction l generalizing seen with
  | nil => intro x h; exact absurd h (List.not_mem_nil x)
  | cons r rs ih =>
    intro x h
    by_cases hm : key r ∈ seen
    · rw [dropDupFirstAux, if_pos hm] at h
      exact List.mem_cons_of_mem r (ih seen x h)
    · rw [dropDupFirstAux, if_neg hm] at h
      cases List.mem_cons.mp h with
      | inl e => exact e ▸ List.mem_cons_self r rs
      | inr h' => exact List.mem_cons_of_mem r (ih _ x h')

theorem key_not_mem_seen_of_mem_dropDupFirstAux {α κ : Type} [DecidableEq κ]
    (key : α → κ) :
    ∀ (seen : List κ) (l : List α) (x : α),
      x ∈ dropDupFirstAux key seen l → key x ∉ seen := by
  intro seen l
  induction l generalizing seen with
  | nil => intro x h; exact absurd h (List.not_mem_nil x)
  | cons r rs ih =>
    intro x h
    by_cases hm : key r ∈ seen
    · rw [dropDupFirstAux, if_pos hm] at h
      exact ih seen x h
    · rw [dropDupFirstAux, if_neg hm] at h
      cases List.mem_cons.mp h with
      | inl e => exact e ▸ hm
      | inr h' =>
        intro hx
        exact ih _ x h' (List.mem_cons_of_mem _ hx)

/-- A row surviving the de-duplication is the first row of the input
carrying its key. -/
theorem find?_eq_of_mem_dropDupFirstAux {α κ : Type} [DecidableEq κ]
    (key : α → κ) :
    ∀ (seen : List κ) (l : List α) (x : α),
      x ∈ dropDupFirstAux key seen l →
      l.find? (fun a => decide (key a = key x)) = some x := by
  intro seen l
  induction l generalizing seen with
  | nil => intro x h; exact absurd h (List.not_mem_nil x)
  | cons r rs ih =>
    intro x h
    by_cases hm : key r ∈ seen
    · rw [dropDupFirstAux, if_pos hm] at h
      have hxs : key x ∉ seen := key_not_mem_seen_of_mem_dropDupFirstAux key seen rs x h
      have hne : ¬ (key r = key x) := fun e => hxs (e ▸ hm)
      rw [List.find?_cons_of_neg _ (by simpa using hne)]
      exact ih seen x h
    · rw [dropDupFirstAux, if_neg hm] at h
      cases List.mem_cons.mp h with
      | inl e =>
        subst e
        rw [List.find?_cons_of_pos _ (by simp)]
      | inr h' =>
        have hxs : key x ∉ key r :: seen :=
          key_not_mem_seen_of_mem_dropDupFirstAux key _ rs x h'
        have hne : ¬ (key r = key x) := fun e => hxs (e ▸ List.mem_cons_self _ _)
        rw [List.find?_cons_of_neg _ (by simpa using hne)]
        exact ih _ x h'

/-- Every key of the input is covered: it was either already seen or
some surviving row carries it. -/
theorem exists_key_mem_dropDupFirstAux {α κ : Type} [DecidableEq κ]
    (key : α → κ) :
    ∀ (seen : List κ) (l : List α) (c : α), c ∈ l →
      key c ∈ seen ∨ ∃ r ∈ dropDupFirstAux key seen l, key r = key c := by
  intro seen l
  induction l generalizing seen with
  | nil => intro c h; exact absurd h (List.not_mem_nil c)
  | cons a rs ih =>
    intro c h
    by_cases hm : key a ∈ seen
    · rw [dropDupFirstAux, if_pos hm]
      cases List.mem_cons.mp h with
      | inl e => exact Or.inl (by rw [e]; exact hm)
      | inr h' => exact ih seen c h'
    · rw [dropDupFirstAux, if_neg hm]
      cases List.mem_cons.mp h with
      | inl e =>
        exact Or.inr ⟨a, List.mem_cons_self _ _, by rw [e]⟩
      | inr h' =>
        rcases ih (key a :: seen) c h' with hs | ⟨r, hr, hk⟩
        · cases List.mem_cons.mp hs with
          | inl e => exact Or.inr ⟨a, List.mem_cons_self _ _, e.symm⟩
          | inr hs' => exact Or.inl hs'
        · exact Or.inr ⟨r, List.mem_cons_of_mem _ hr, hk⟩

/-- The surviving rows have pairwise distinct keys. -/
theorem pairwise_key_ne_dropDupFirstAux {α κ : Type} [DecidableEq κ]
    (key : α → κ) :
    ∀ (seen : List κ) (l : List α),
      (dropDupFirstAux key seen l).Pairwise (fun a b => key a ≠ key b) := by
  intro seen l
  induction l generalizing seen with
  | nil => exact List.Pairwise.nil
  | cons r rs ih =>
    by_cases hm : key r ∈ seen
    · rw [dropDupFirstAux, if_pos hm]; exact ih seen
    · rw [dropDupFirstAux, if_neg hm]
      refine List.Pairwise.cons ?_ (ih (key r :: seen))
      intro x hx he
      exact key_not_mem_seen_of_mem_dropDupFirstAux key _ rs x hx
        (he ▸ List.mem_cons_self _ _)

/-! ## Properties of the left merge -/

theorem unmatched_mem_leftMerge {c : ContractRow} {cs : List ContractRow}
    {es : List EnrollRow} (hc : c ∈ cs)
    (h : ∀ e ∈ es, enrollKey e ≠ contractKey c) :
    unmatchedEnroll c ∈ leftMerge cs es := by
  have hfil : es.filter (fun e => decide (enrollKey e = contractKey c)) = [] :=
    List.filter_eq_nil_iff.mpr (by intro e he; simpa using h e he)
  refine List.mem_flatMap.mpr ⟨c, hc, ?_⟩
  rw [hfil]
  exact List.mem_singleton.mpr rfl

theorem combine_mem_leftMerge {c : ContractRow} {e : EnrollRow}
    {cs : List ContractRow} {es : List EnrollRow} (hc : c ∈ cs) (he : e ∈ es)
    (hk : enrollKey e = contractKey c) :
    combineEnroll c e ∈ leftMerge cs es := by
  refine List.mem_flatMap.mpr ⟨c, hc, ?_⟩
  have he' : e ∈ es.filter (fun x => decide (enrollKey x = contractKey c)) :=
    List.mem_filter.mpr ⟨he, by simp [hk]⟩
  cases hfil : es.filter (fun x => decide (enrollKey x = contractKey c)) with
  | nil => rw [hfil] at he'; exact absurd he' (List.not_mem_nil e)
  | cons x xs => rw [hfil] at he'; exact List.mem_map_of_mem _ he'

/-- Every left row appears in the merge output, as the contract part of
some output row. -/
theorem exists_contract_mem_leftMerge {c : ContractRow}
    {cs : List ContractRow} {es : List EnrollRow} (hc : c ∈ cs) :
    ∃ o ∈ leftMerge cs es, contractOfMerged o = c := by
  cases hfil : es.filter (fun x => decide (enrollKey x = contractKey c)) with
  | nil =>
    refine ⟨unmatchedEnroll c, List.mem_flatMap.mpr ⟨c, hc, ?_⟩, rfl⟩
    rw [hfil]
    exact List.mem_singleton.mpr rfl
  | cons x xs =>
    refine ⟨combineEnroll c x, List.mem_flatMap.mpr ⟨c, hc, ?_⟩, rfl⟩
    rw [hfil]
    exact List.mem_map_of_mem _ (List.mem_cons_self x xs)

/-! ## Claims -/

/-- C10: `read_contract` registers no missing-value sentinel of its own
(its token list is exactly the pandas default), so a literal `"*"` in a
text column of the contract file is preserved verbatim as the string
`"*"`, whereas the enrollment and service-area readers turn `"*"` into a
missing value. -/
theorem c10_contract_preserves_star :
    contractNaValues = pandasDefaultNa ∧
    applyNa contractNaValues "*" = some "*" ∧
    applyNa enrollNaValues "*" = none ∧
    applyNa serviceAreaNaValues "*" = none := by
  decide

/-- C4: the penetration reader treats `""`, `"NA"`, `"*"`, `"-"`, `"--"`
as missing, strips commas and percent signs and coerces to numbers
(`"1,234" ↦ 1234`, `"56%" ↦ 56`), and a value that still fails to parse
becomes missing rather than raising. -/
theorem c4_penetration_numeric_cleaning :
    penNumericCell "1,234" = some 1234 ∧
    penNumericCell "56%" = some 56 ∧
    penNumericCell "" = none ∧
    penNumericCell "NA" = none ∧
    penNumericCell "*" = none ∧
    penNumericCell "-" = none ∧
    penNumericCell "--" = none ∧
    penNumericCell "abc" = none := by
  decide

/-- C5: the service-area reader maps exactly the literal strings
`"TRUE"` and `"FALSE"` in the `partial` column to booleans; every other
string becomes missing, by strict literal match. -/
theorem c5_service_area_partial_strict :
    saPartialCell "TRUE" = some true ∧
    saPartialCell "FALSE" = some false ∧
    ∀ s : String, s ≠ "TRUE" → s ≠ "FALSE" → saPartialCell s = none := by
  refine ⟨by decide, by decide, ?_⟩
  intro s h1 h2
  unfold saPartialCell applyNa
  split
  · simp [partialMap]
  · simp [partialMap, h1, h2]

/-- Witness for C5 at the spec's own examples `"true"`, `"Yes"`, `""`. -/
theorem c5_service_area_partial_strict_witness :
    saPartialCell "true" = none ∧
    saPartialCell "Yes" = none ∧
    saPartialCell "" = none :=
  ⟨c5_service_area_partial_strict.2.2 "true" (by decide) (by decide),
   c5_service_area_partial_strict.2.2 "Yes" (by decide) (by decide),
   c5_service_area_partial_strict.2.2 "" (by decide) (by decide)⟩

/-- C6: `_read_csv_with_fallback` returns the UTF-8 read when it
succeeds; on a Unicode decode error it retries exactly once with the
same options as Latin-1; a non-decode error of the first attempt and any
error of the retry propagate; and the result depends only on the
reader's behaviour at UTF-8 and Latin-1 — no other encoding is tried. -/
theorem c6_encoding_fallback {Opts Table : Type}
    (read : Encoding → Opts → Except ReadError Table) (opts : Opts) :
    (∀ t, read .utf8 opts = .ok t → readCsvWithFallback read opts = .ok t) ∧
    (read .utf8 opts = .error .unicodeDecodeError →
      readCsvWithFallback read opts = read .latin1 opts) ∧
    (∀ msg, read .utf8 opts = .error (.otherError msg) →
      readCsvWithFallback read opts = .error (.otherError msg)) ∧
    (∀ e, read .utf8 opts = .error .unicodeDecodeError →
      read .latin1 opts = .error e →
      readCsvWithFallback read opts = .error e) ∧
    (∀ read' : Encoding → Opts → Except ReadError Table,
      read .utf8 opts = read' .utf8 opts →
      read .latin1 opts = read' .latin1 opts →
      readCsvWithFallback read opts = readCsvWithFallback read' opts) := by
  refine ⟨?_, ?_, ?_, ?_, ?_⟩
  · intro t h; simp [readCsvWithFallback, h]
  · intro h; simp [readCsvWithFallback, h]
  · intro msg h; simp [readCsvWithFallback, h]
  · intro e h1 h2; simp [readCsvWithFallback, h1, h2]
  · intro read' h1 h2
    unfold readCsvWithFallback
    rw [h1]
    cases hu : read' .utf8 opts with
    | ok t => rfl
    | error e => cases e with
      | unicodeDecodeError => exact h2
      | otherError msg => rfl

/-- Witness for C6: a decode failure followed by a Latin-1 parser error
surfaces the parser error to the caller. -/
theorem c6_encoding_fallback_witness :
    readCsvWithFallback fallbackDemoReader () =
      .error (.otherError "parser error") :=
  (c6_encoding_fallback fallbackDemoReader ()).2.2.2.1
    (.otherError "parser error") rfl rfl

/-- C7: every month loader stamps integer month and year columns: when
`int(m)` evaluates to `mi` (also for a textual month), every output row
of `load_month`, `load_month_sa` and `load_month_pen` carries
`month = mi` and `year = y`. -/
theorem c7_loaders_stamp_month_year
    (cs : List ContractRow) (es : List EnrollRow)
    (sa : List ServiceAreaRow) (pen : List PenetrationRow)
    (m : PyVal) (mi y : Int) (hm : pyInt m = some mi) :
    (∃ out, load_month cs es m y = some out ∧
      ∀ r ∈ out, r.month = mi ∧ r.year = y) ∧
    (∃ out, load_month_sa sa m y = some out ∧
      ∀ r ∈ out, r.month = mi ∧ r.year = y) ∧
    (∃ out, load_month_pen pen m y = some out ∧
      ∀ r ∈ out, r.month = mi ∧ r.year = y) := by
  refine ⟨⟨_, by rw [load_month, hm]; rfl, ?_⟩,
          ⟨_, by rw [load_month_sa, hm]; rfl, ?_⟩,
          ⟨_, by rw [load_month_pen, hm]; rfl, ?_⟩⟩ <;>
    · intro r hr
      rcases List.mem_map.mp hr with ⟨x, _, rfl⟩
      exact ⟨rfl, rfl⟩

/-- Witness for C7 with the month supplied as the text `" 07"`. -/
theorem c7_loaders_stamp_month_year_witness :
    pyInt (.str " 07") = some 7 ∧
    ((∃ out, load_month [demoContractRow] [] (.str " 07") 2010 = some out ∧
        ∀ r ∈ out, r.month = 7 ∧ r.year = 2010) ∧
     (∃ out, load_month_sa [demoServiceAreaRow] (.str " 07") 2010 = some out ∧
        ∀ r ∈ out, r.month = 7 ∧ r.year = 2010) ∧
     (∃ out, load_month_pen [demoPenetrationRow] (.str " 07") 2010 = some out ∧
        ∀ r ∈ out, r.month = 7 ∧ r.year = 2010)) :=
  ⟨by decide,
   c7_loaders_stamp_month_year [demoContractRow] [] [demoServiceAreaRow]
     [demoPenetrationRow] (.str " 07") 7 2010 (by decide)⟩

/-- C1: `load_month` de-duplicates the contract table by
`(contractid, planid)` keeping the first occurrence in file order, then
left-joins enrollment onto it by that key: every de-duplicated contract
row appears in the output, a matching enrollment row yields a combined
row, and a contract row with no matching enrollment key appears with
`ssa`, `fips`, `state`, `county`, `enrollment` all missing. -/
theorem c1_load_month_dedup_left_join (cs : List ContractRow)
    (es : List EnrollRow) :
    (∀ r ∈ dropDupFirst contractKey cs,
       cs.find? (fun a => decide (contractKey a = contractKey r)) = some r) ∧
    (∀ c ∈ cs, ∃ r ∈ dropDupFirst contractKey cs,
       contractKey r = contractKey c) ∧
    (∀ r ∈ dropDupFirst contractKey cs,
       ∃ o ∈ loadMonthMerge cs es, contractOfMerged o = r) ∧
    (∀ r ∈ dropDupFirst contractKey cs, ∀ e ∈ es,
       enrollKey e = contractKey r →
       combineEnroll r e ∈ loadMonthMerge cs es) ∧
    (∀ r ∈ dropDupFirst contractKey cs,
       (∀ e ∈ es, enrollKey e ≠ contractKey r) →
       unmatchedEnroll r ∈ loadMonthMerge cs es ∧
       (unmatchedEnroll r).ssa = none ∧ (unmatchedEnroll r).fips = none ∧
       (unmatchedEnroll r).state = none ∧
       (unmatchedEnroll r).county = none ∧
       (unmatchedEnroll r).enrollment = none) := by
  refine ⟨?_, ?_, ?_, ?_, ?_⟩
  · intro r hr
    exact find?_eq_of_mem_dropDupFirstAux contractKey [] cs r hr
  · intro c hc
    rcases exists_key_mem_dropDupFirstAux contractKey [] cs c hc with hs | h
    · exact absurd hs (List.not_mem_nil _)
    · exact h
  · intro r hr
    exact exists_contract_mem_leftMerge hr
  · intro r hr e he hk
    exact combine_mem_leftMerge hr he hk
  · intro r hr h
    exact ⟨unmatched_mem_leftMerge hr h, rfl, rfl, rfl, rfl, rfl⟩

/-- Witness for C1: with contract keys `planid 1` (matched) and
`planid 2` (unmatched), the unmatched row survives the join with all
enrollment-only fields missing. -/
theorem c1_load_month_dedup_left_join_witness :
    unmatchedEnroll demoContractRowB ∈
      loadMonthMerge [demoContractRow, demoContractRowB] [demoEnrollRow] ∧
    (unmatchedEnroll demoContractRowB).ssa = none ∧
    (unmatchedEnroll demoContractRowB).fips = none ∧
    (unmatchedEnroll demoContractRowB).state = none ∧
    (unmatchedEnroll demoContractRowB).county = none ∧
    (unmatchedEnroll demoContractRowB).enrollment = none :=
  (c1_load_month_dedup_left_join [demoContractRow, demoContractRowB]
    [demoEnrollRow]).2.2.2.2 demoContractRowB (by decide) (by decide)

/-- C8 counterexample: with one contract row and two enrollment rows
sharing its `(contractid, planid)` key (two counties), the merged output
has TWO rows for the single distinct contract key, so the output does
not contain exactly one row per distinct key for every enrollment
table. -/
theorem c8_counterexample :
    dropDupFirst contractKey [demoContractRow] = [demoContractRow] ∧
    (loadMonthMerge [demoContractRow] [demoEnrollRow, demoEnrollRow2]).map
        mergedKey
      = [contractKey demoContractRow, contractKey demoContractRow] := by
  decide

/-- At most one row of a key-pairwise-distinct list matches a key. -/
theorem length_filter_key_le_one (es : List EnrollRow)
    (he : es.Pairwise (fun a b => enrollKey a ≠ enrollKey b))
    (k : Option String × Option Rat) :
    (es.filter (fun e => decide (enrollKey e = k))).length ≤ 1 := by
  induction es with
  | nil => simp
  | cons a as ih =>
    rcases List.pairwise_cons.mp he with ⟨ha, has⟩
    by_cases hp : enrollKey a = k
    · have hnil : as.filter (fun e => decide (enrollKey e = k)) = [] := by
        refine List.filter_eq_nil_iff.mpr ?_
        intro e hae
        simp only [decide_eq_true_eq]
        intro hk
        exact ha e hae (hp.trans hk.symm)
      rw [List.filter_cons_of_pos (by simp [hp]), hnil]
      exact Nat.le_refl 1
    · rw [List.filter_cons_of_neg (by simp [hp])]
      exact ih has

/-- With at most one enrollment row per key, the left merge yields
exactly the keys of the left table, in order. -/
theorem map_key_leftMerge (d : List ContractRow) (es : List EnrollRow)
    (he : es.Pairwise (fun a b => enrollKey a ≠ enrollKey b)) :
    (leftMerge d es).map mergedKey = d.map contractKey := by
  induction d with
  | nil => rfl
  | cons c ds ih =>
    have hblock : leftMerge (c :: ds) es =
        (match es.filter (fun e => decide (enrollKey e = contractKey c)) with
          | [] => [unmatchedEnroll c]
          | ms => ms.map (combineEnroll c)) ++ leftMerge ds es := by
      simp [leftMerge]
    rw [hblock, List.map_append, ih]
    have hhead :
        (match es.filter (fun e => decide (enrollKey e = contractKey c)) with
          | [] => [unmatchedEnroll c]
          | ms => ms.map (combineEnroll c)).map mergedKey
          = [contractKey c] := by
      cases hfil : es.filter (fun e => decide (enrollKey e = contractKey c)) with
      | nil => rfl
      | cons x xs =>
        have hlen := length_filter_key_le_one es he (contractKey c)
        rw [hfil] at hlen
        have hxs : xs = [] := by
          cases xs with
          | nil => rfl
          | cons y ys => simp at hlen
        subst hxs
        rfl
    rw [hhead]
    rfl

/-- C8 as amended: for every contract table, the merged output contains
at least one row per distinct `(contractid, planid)` key of the contract
side, and exactly one provided the enrollment table has at most one row
per such key (the original claim over-generalised: an enrollment table
with several rows for one key — e.g. several counties — duplicates the
contract row, see the counterexample). -/
theorem c8_amended_one_row_per_key (cs : List ContractRow)
    (es : List EnrollRow)
    (he : es.Pairwise (fun a b => enrollKey a ≠ enrollKey b)) :
    (loadMonthMerge cs es).map mergedKey
      = (dropDupFirst contractKey cs).map contractKey ∧
    ((dropDupFirst contractKey cs).map contractKey).Nodup ∧
    (∀ c ∈ cs, contractKey c ∈ (dropDupFirst contractKey cs).map contractKey) := by
  refine ⟨map_key_leftMerge _ es he, ?_, ?_⟩
  · exact List.Pairwise.map contractKey (fun a b h => h)
      (pairwise_key_ne_dropDupFirstAux contractKey [] cs)
  · intro c hc
    rcases exists_key_mem_dropDupFirstAux contractKey [] cs c hc with hs | ⟨r, hr, hk⟩
    · exact absurd hs (List.not_mem_nil _)
    · exact List.mem_map.mpr ⟨r, hr, hk⟩

/-- Witness for the amended C8: duplicate contract keys collapse to one
row each even though one key matches enrollment and the other does
not. -/
theorem c8_amended_one_row_per_key_witness :
    (loadMonthMerge [demoContractRow, demoContractRowDup, demoContractRowB]
        [demoEnrollRow, demoEnrollRowB]).map mergedKey
      = (dropDupFirst contractKey
          [demoContractRow, demoContractRowDup, demoContractRowB]).map
            contractKey ∧
    ((dropDupFirst contractKey
        [demoContractRow, demoContractRowDup, demoContractRowB]).map
          contractKey).Nodup ∧
    (∀ c ∈ [demoContractRow, demoContractRowDup, demoContractRowB],
       contractKey c ∈
         (dropDupFirst contractKey
           [demoContractRow, demoContractRowDup, demoContractRowB]).map
             contractKey) :=
  c8_amended_one_row_per_key
    [demoContractRow, demoContractRowDup, demoContractRowB]
    [demoEnrollRow, demoEnrollRowB] (by decide)

/-! ## Properties of the outer merge -/

theorem leftOnly_mem_outerMergePrem {a : MaPremRow} {A : List MaPremRow}
    {B : List MapdPremRow} (ha : a ∈ A)
    (h : ∀ b ∈ B, mapdKey b ≠ maKey a) :
    leftOnlyPrem a ∈ outerMergePrem A B := by
  have hfil : B.filter (fun b => decide (mapdKey b = maKey a)) = [] :=
    List.filter_eq_nil_iff.mpr (by intro b hb; simpa using h b hb)
  refine List.mem_append.mpr (Or.inl (List.mem_flatMap.mpr ⟨a, ha, ?_⟩))
  rw [hfil]
  exact List.mem_singleton.mpr rfl

theorem rightOnly_mem_outerMergePrem {b : MapdPremRow} {A : List MaPremRow}
    {B : List MapdPremRow} (hb : b ∈ B)
    (h : ∀ a ∈ A, maKey a ≠ mapdKey b) :
    rightOnlyPrem b ∈ outerMergePrem A B := by
  refine List.mem_append.mpr (Or.inr (List.mem_map_of_mem _ ?_))
  exact List.mem_filter.mpr ⟨hb, by simpa using h⟩

theorem combine_mem_outerMergePrem {a : MaPremRow} {b : MapdPremRow}
    {A : List MaPremRow} {B : List MapdPremRow} (ha : a ∈ A) (hb : b ∈ B)
    (hk : mapdKey b = maKey a) :
    combinePrem a b ∈ outerMergePrem A B := by
  refine List.mem_append.mpr (Or.inl (List.mem_flatMap.mpr ⟨a, ha, ?_⟩))
  have hb' : b ∈ B.filter (fun x => decide (mapdKey x = maKey a)) :=
    List.mem_filter.mpr ⟨hb, by simp [hk]⟩
  cases hfil : B.filter (fun x => decide (mapdKey x = maKey a)) with
  | nil => rw [hfil] at hb'; exact absurd hb' (List.not_mem_nil b)
  | cons x xs => rw [hfil] at hb'; exact List.mem_map_of_mem _ hb'

/-- C2: after both tables are cleaned, they are outer-joined on
`(contractid, planid, state, county)`: a key present only in the cleaned
main table yields a row with the five secondary columns missing, a key
present only in the cleaned secondary table yields a row with the
main-only `premium` column missing, a key present in both yields a
combined row, and every output row is stamped with the supplied year. -/
theorem c2_outer_join_cleaned_tables (ma : List MaPremRow)
    (mapd : List MapdPremRawRow) (y : Int) :
    (∀ a ∈ cleanMa ma, (∀ b ∈ cleanMapd mapd, mapdKey b ≠ maKey a) →
       ({ toPremMergeRow := leftOnlyPrem a, year := y } : PlanPremiumRow) ∈
         mapd_clean_merge ma mapd y ∧
       (leftOnlyPrem a).premium = a.premium ∧
       (leftOnlyPrem a).premium_partc = none ∧
       (leftOnlyPrem a).premium_partd_basic = none ∧
       (leftOnlyPrem a).premium_partd_supp = none ∧
       (leftOnlyPrem a).premium_partd_total = none ∧
       (leftOnlyPrem a).partd_deductible = none) ∧
    (∀ b ∈ cleanMapd mapd, (∀ a ∈ cleanMa ma, maKey a ≠ mapdKey b) →
       ({ toPremMergeRow := rightOnlyPrem b, year := y } : PlanPremiumRow) ∈
         mapd_clean_merge ma mapd y ∧
       (rightOnlyPrem b).premium = none ∧
       (rightOnlyPrem b).premium_partc = b.premium_partc ∧
       (rightOnlyPrem b).premium_partd_basic = b.premium_partd_basic ∧
       (rightOnlyPrem b).premium_partd_supp = b.premium_partd_supp ∧
       (rightOnlyPrem b).premium_partd_total = b.premium_partd_total ∧
       (rightOnlyPrem b).partd_deductible = b.partd_deductible) ∧
    (∀ a ∈ cleanMa ma, ∀ b ∈ cleanMapd mapd, mapdKey b = maKey a →
       ({ toPremMergeRow := combinePrem a b, year := y } : PlanPremiumRow) ∈
         mapd_clean_merge ma mapd y ∧
       (combinePrem a b).premium = a.premium ∧
       (combinePrem a b).premium_partc = b.premium_partc) ∧
    (∀ r ∈ mapd_clean_merge ma mapd y, r.year = y) := by
  refine ⟨?_, ?_, ?_, ?_⟩
  · intro a ha h
    exact ⟨List.mem_map_of_mem _ (leftOnly_mem_outerMergePrem ha h),
      rfl, rfl, rfl, rfl, rfl, rfl⟩
  · intro b hb h
    exact ⟨List.mem_map_of_mem _ (rightOnly_mem_outerMergePrem hb h),
      rfl, rfl, rfl, rfl, rfl, rfl⟩
  · intro a ha b hb hk
    exact ⟨List.mem_map_of_mem _ (combine_mem_outerMergePrem ha hb hk),
      rfl, rfl⟩
  · intro r hr
    rcases List.mem_map.mp hr with ⟨x, _, rfl⟩
    rfl

/-- Witness for C2: one key only in the cleaned main table and one key
only in the cleaned secondary table; each appears in the output with the
other side missing and the year stamped. -/
theorem c2_outer_join_cleaned_tables_witness :
    (({ toPremMergeRow := leftOnlyPrem demoMaPremRow, year := 2010 } :
        PlanPremiumRow) ∈
      mapd_clean_merge [demoMaPremRow] [demoMapdRawRowB] 2010 ∧
     (leftOnlyPrem demoMaPremRow).premium = demoMaPremRow.premium ∧
     (leftOnlyPrem demoMaPremRow).premium_partc = none ∧
     (leftOnlyPrem demoMaPremRow).premium_partd_basic = none ∧
     (leftOnlyPrem demoMaPremRow).premium_partd_supp = none ∧
     (leftOnlyPrem demoMaPremRow).premium_partd_total = none ∧
     (leftOnlyPrem demoMaPremRow).partd_deductible = none) ∧
    (({ toPremMergeRow := rightOnlyPrem (coerceMapdPlanid demoMapdRawRowB),
        year := 2010 } : PlanPremiumRow) ∈
      mapd_clean_merge [demoMaPremRow] [demoMapdRawRowB] 2010 ∧
     (rightOnlyPrem (coerceMapdPlanid demoMapdRawRowB)).premium = none ∧
     (rightOnlyPrem (coerceMapdPlanid demoMapdRawRowB)).premium_partc =
       (coerceMapdPlanid demoMapdRawRowB).premium_partc ∧
     (rightOnlyPrem (coerceMapdPlanid demoMapdRawRowB)).premium_partd_basic =
       (coerceMapdPlanid demoMapdRawRowB).premium_partd_basic ∧
     (rightOnlyPrem (coerceMapdPlanid demoMapdRawRowB)).premium_partd_supp =
       (coerceMapdPlanid demoMapdRawRowB).premium_partd_supp ∧
     (rightOnlyPrem (coerceMapdPlanid demoMapdRawRowB)).premium_partd_total =
       (coerceMapdPlanid demoMapdRawRowB).premium_partd_total ∧
     (rightOnlyPrem (coerceMapdPlanid demoMapdRawRowB)).partd_deductible =
       (coerceMapdPlanid demoMapdRawRowB).partd_deductible) :=
  ⟨(c2_outer_join_cleaned_tables [demoMaPremRow] [demoMapdRawRowB] 2010).1
      demoMaPremRow (by decide) (by decide),
   (c2_outer_join_cleaned_tables [demoMaPremRow] [demoMapdRawRowB] 2010).2.1
      (coerceMapdPlanid demoMapdRawRowB) (by decide) (by decide)⟩

/-! ## Properties of the group-wise forward fill -/

theorem lastSomeBy_eq_none_spec {α β κ : Type} [DecidableEq κ]
    (get : α → Option β) (key : α → κ) (k : κ) :
    ∀ (l : List α), lastSomeBy get key k l = none →
      ∀ (i : Nat) (r : α), l.get? i = some r → key r = k → get r = none := by
  intro l
  induction l with
  | nil => intro _ i r hr; simp at hr
  | cons p ps ih =>
    intro h i r hr hk
    rw [lastSomeBy] at h
    cases hrec : lastSomeBy get key k ps with
    | some v => rw [hrec] at h; exact absurd h (by simp)
    | none =>
      rw [hrec] at h
      cases i with
      | zero =>
        have hpr : p = r := by simpa using hr
        subst hpr
        rw [if_pos hk] at h
        exact h
      | succ j => exact ih hrec j r (by simpa using hr) hk

theorem lastSomeBy_eq_some_spec {α β κ : Type} [DecidableEq κ]
    (get : α → Option β) (key : α → κ) (k : κ) :
    ∀ (l : List α) (v : β), lastSomeBy get key k l = some v →
      ∃ (j : Nat) (r₀ : α), l.get? j = some r₀ ∧ key r₀ = k ∧
        get r₀ = some v ∧
        ∀ (i : Nat) (r : α), j < i → l.get? i = some r → key r = k →
          get r = none := by
  intro l
  induction l with
  | nil => intro v h; rw [lastSomeBy] at h; exact absurd h (by simp)
  | cons p ps ih =>
    intro v h
    rw [lastSomeBy] at h
    cases hrec : lastSomeBy get key k ps with
    | some w =>
      rw [hrec] at h
      have hwv : w = v := by simpa using h
      subst hwv
      rcases ih w hrec with ⟨j, r₀, h1, h2, h3, h4⟩
      refine ⟨j + 1, r₀, by simpa using h1, h2, h3, ?_⟩
      intro i r hji hir hk2
      cases i with
      | zero => omega
      | succ i' =>
        exact h4 i' r (Nat.lt_of_succ_lt_succ hji) (by simpa using hir) hk2
    | none =>
      rw [hrec] at h
      by_cases hk : key p = k
      · rw [if_pos hk] at h
        refine ⟨0, p, rfl, hk, h, ?_⟩
        intro i r hi hir hk2
        cases i with
        | zero => omega
        | succ i' =>
          exact lastSomeBy_eq_none_spec get key k ps hrec i' r
            (by simpa using hir) hk2
      · rw [if_neg hk] at h
        exact absurd h (by simp)

theorem ffillFrom_length {α : Type} (fill : List α → α → α) :
    ∀ (l prev : List α), (ffillFrom fill prev l).length = l.length := by
  intro l
  induction l with
  | nil => intro prev; rfl
  | cons r rs ih => intro prev; simp [ffillFrom, ih]

theorem ffillFrom_get? {α : Type} (fill : List α → α → α) :
    ∀ (l prev : List α) (i : Nat),
      (ffillFrom fill prev l).get? i
        = (l.get? i).map (fun r => fill (prev ++ l.take i) r) := by
  intro l
  induction l with
  | nil => intro prev i; simp [ffillFrom]
  | cons r rs ih =>
    intro prev i
    cases i with
    | zero => simp [ffillFrom]
    | succ i' =>
      simp only [ffillFrom, List.get?]
      rw [ih (prev ++ [r]) i']
      simp [List.append_assoc]

/-- Any column filled by `ffillFrom` with a per-row fill function that
preserves the key and sets the column to `fillVal` satisfies
`FillsOnlyWithinGroup`. -/
theorem fillsOnlyWithinGroup_ffillFrom {α β : Type}
    (get : α → Option β) (key : α → PremKey) (fill : List α → α → α)
    (hkey : ∀ prev r, key (fill prev r) = key r)
    (hget : ∀ prev r, get (fill prev r) = fillVal get key prev r)
    (s : List α) :
    FillsOnlyWithinGroup get key s (ffillFrom fill [] s) := by
  constructor
  · exact ffillFrom_length fill s []
  · intro i r r' hr hr'
    rw [ffillFrom_get? fill s [] i, hr] at hr'
    have hr'' : fill (s.take i) r = r' := by simpa using hr'
    subst hr''
    refine ⟨hkey _ r, ?_, ?_⟩
    · intro hval
      rw [hget]
      simp [fillVal, hval]
    · intro hval
      refine ⟨?_, ?_⟩
      · intro hs
        rw [hget]
        cases hgr : get r with
        | some v => simp [fillVal, hval, hgr]
        | none => rw [hgr] at hs; simp at hs
      · intro hnone
        rw [hget]
        have hfv : fillVal get key (s.take i) r
            = lastSomeBy get key (key r) (s.take i) := by
          simp [fillVal, hval, hnone]
        rw [hfv]
        cases hls : lastSomeBy get key (key r) (s.take i) with
        | none =>
          left
          refine ⟨rfl, ?_⟩
          intro j r₀ hj hjr hk
          exact lastSomeBy_eq_none_spec get key (key r) (s.take i) hls j r₀
            (by rw [List.get?_take hj]; exact hjr) hk
        | some v =>
          right
          rcases lastSomeBy_eq_some_spec get key (key r) (s.take i) v hls
            with ⟨j, r₀, h1, h2, h3, h4⟩
          have hj : j < i := by
            rcases List.get?_eq_some.mp h1 with ⟨hj', _⟩
            calc j < (s.take i).length := hj'
              _ ≤ i := by rw [List.length_take]; exact Nat.min_le_left i s.length
          refine ⟨j, r₀, hj, ?_, h2, h3, by simp [h3], ?_⟩
          · rw [← List.get?_take hj]; exact h1
          · intro l r₁ hjl hli hlr hk1
            exact h4 l r₁ hjl (by rw [List.get?_take hli]; exact hlr) hk1

/-- C3: in `mapd_clean_merge`, the forward fill of the premium field of
the main table and of all five premium/deductible fields of the
secondary table operates only within a `(contractid, planid, state,
county)` group of the sorted table: a missing value is replaced only by
the nearest preceding non-missing value from a row with identical key
values, never by a value from another key group; a row whose key tuple
has a missing component belongs to no group (`groupby` default
`dropna=True`) and its filled cells come out missing. -/
theorem c3_ffill_within_group (ma : List MaPremRow)
    (mapd : List MapdPremRawRow) :
    FillsOnlyWithinGroup (fun r => r.premium) maKey
      (sortedMa ma) (ffillMa (sortedMa ma)) ∧
    FillsOnlyWithinGroup (fun r => r.premium_partc) mapdKey
      (sortedMapd (mapd.map coerceMapdPlanid))
      (ffillMapd (sortedMapd (mapd.map coerceMapdPlanid))) ∧
    FillsOnlyWithinGroup (fun r => r.premium_partd_basic) mapdKey
      (sortedMapd (mapd.map coerceMapdPlanid))
      (ffillMapd (sortedMapd (mapd.map coerceMapdPlanid))) ∧
    FillsOnlyWithinGroup (fun r => r.premium_partd_supp) mapdKey
      (sortedMapd (mapd.map coerceMapdPlanid))
      (ffillMapd (sortedMapd (mapd.map coerceMapdPlanid))) ∧
    FillsOnlyWithinGroup (fun r => r.premium_partd_total) mapdKey
      (sortedMapd (mapd.map coerceMapdPlanid))
      (ffillMapd (sortedMapd (mapd.map coerceMapdPlanid))) ∧
    FillsOnlyWithinGroup (fun r => r.partd_deductible) mapdKey
      (sortedMapd (mapd.map coerceMapdPlanid))
      (ffillMapd (sortedMapd (mapd.map coerceMapdPlanid))) := by
  refine ⟨?_, ?_, ?_, ?_, ?_, ?_⟩
  · exact fillsOnlyWithinGroup_ffillFrom (fun r => r.premium) maKey
      fillMaRow (fun prev r => rfl) (fun prev r => rfl) (sortedMa ma)
  · exact fillsOnlyWithinGroup_ffillFrom (fun r => r.premium_partc) mapdKey
      fillMapdRow (fun prev r => rfl) (fun prev r => rfl)
      (sortedMapd (mapd.map coerceMapdPlanid))
  · exact fillsOnlyWithinGroup_ffillFrom (fun r => r.premium_partd_basic) mapdKey
      fillMapdRow (fun prev r => rfl) (fun prev r => rfl)
      (sortedMapd (mapd.map coerceMapdPlanid))
  · exact fillsOnlyWithinGroup_ffillFrom (fun r => r.premium_partd_supp) mapdKey
      fillMapdRow (fun prev r => rfl) (fun prev r => rfl)
      (sortedMapd (mapd.map coerceMapdPlanid))
  · exact fillsOnlyWithinGroup_ffillFrom (fun r => r.premium_partd_total) mapdKey
      fillMapdRow (fun prev r => rfl) (fun prev r => rfl)
      (sortedMapd (mapd.map coerceMapdPlanid))
  · exact fillsOnlyWithinGroup_ffillFrom (fun r => r.partd_deductible) mapdKey
      fillMapdRow (fun prev r => rfl) (fun prev r => rfl)
      (sortedMapd (mapd.map coerceMapdPlanid))

/-- Witness for C3 on a concrete table: two rows of one complete key
(premium missing then present) and one row with an incomplete key and a
present premium; the concrete fill shows the incomplete-key row's
premium wiped and the complete-key rows untouched (no backward fill). -/
theorem c3_ffill_within_group_witness :
    FillsOnlyWithinGroup (fun r => r.premium) maKey
      (sortedMa [demoMaPremRowNoPrem, demoMaPremRow, demoMaPremRowNoKey])
      (ffillMa (sortedMa [demoMaPremRowNoPrem, demoMaPremRow, demoMaPremRowNoKey])) ∧
    ffillMa (sortedMa [demoMaPremRowNoPrem, demoMaPremRow, demoMaPremRowNoKey])
      = [demoMaPremRowNoPrem, demoMaPremRow,
         { demoMaPremRowNoKey with premium := none }] :=
  ⟨(c3_ffill_within_group [demoMaPremRowNoPrem, demoMaPremRow, demoMaPremRowNoKey] []).1,
   by decide⟩

/-! ## Frame properties of the heap execution -/

theorem halloc_mem (h : PyHeap) (t : PTable) (a : Nat) :
    (halloc h t).1.mem a = if a = h.next then some t else h.mem a := rfl

theorem halloc_next (h : PyHeap) (t : PTable) :
    (halloc h t).1.next = h.next + 1 := rfl

theorem halloc_addr (h : PyHeap) (t : PTable) :
    (halloc h t).2 = h.next := rfl

theorem hset_mem (h : PyHeap) (b : Nat) (t : PTable) (a : Nat) :
    (hset h b t).mem a = if a = b then some t else h.mem a := rfl

theorem hset_next (h : PyHeap) (b : Nat) (t : PTable) :
    (hset h b t).next = h.next := rfl

/-- C9: `mapd_clean_merge` does not mutate its two input tables: running
the body over the heap leaves the caller's `ma_data` and `mapd_data`
objects exactly as they were (every statement either allocates a fresh
object or mutates a freshly allocated one), while the returned object
holds the merge result. -/
theorem c9_no_input_mutation (h : PyHeap) (aMa aMapd : Nat) (y : Int)
    (tMa : List MaPremRow) (tMd : List MapdPremRawRow)
    (hMa : h.mem aMa = some (.maT tMa))
    (hMd : h.mem aMapd = some (.mapdRawT tMd))
    (lMa : aMa < h.next) (lMd : aMapd < h.next) :
    (∃ out, mapdCleanMergeExec h aMa aMapd y = some out) ∧
    ∀ out : PyHeap × Nat, mapdCleanMergeExec h aMa aMapd y = some out →
      out.1.mem aMa = some (.maT tMa) ∧
      out.1.mem aMapd = some (.mapdRawT tMd) ∧
      out.1.mem out.2 = some (.planPremT (mapd_clean_merge tMa tMd y)) := by
  have r1 : readMa h aMa = some tMa := by rw [readMa, hMa]
  have r2 : readMapdRaw h aMapd = some tMd := by rw [readMapdRaw, hMd]
  constructor
  · have hs : (mapdCleanMergeExec h aMa aMapd y).isSome = true := by
      unfold mapdCleanMergeExec
      rw [r1, r2]
      rfl
    exact Option.isSome_iff_exists.mp hs
  · intro out hE
    unfold mapdCleanMergeExec at hE
    rw [r1, r2] at hE
    obtain rfl := Option.some.inj hE
    refine ⟨?_, ?_, ?_⟩
    · simp only [halloc_mem, halloc_next, halloc_addr, hset_mem, hset_next]
      repeat rw [if_neg (by omega)]
      exact hMa
    · simp only [halloc_mem, halloc_next, halloc_addr, hset_mem, hset_next]
      repeat rw [if_neg (by omega)]
      exact hMd
    · simp only [halloc_mem, halloc_next, halloc_addr, hset_mem, hset_next]
      simp

/-- Witness for C9 on the concrete heap: the execution succeeds and both
input addresses still hold their original tables afterwards. -/
theorem c9_no_input_mutation_witness :
    demoHeap.mem 0 = some (.maT [demoMaPremRow]) ∧
    demoHeap.mem 1 = some (.mapdRawT [demoMapdRawRow]) ∧
    ((∃ out, mapdCleanMergeExec demoHeap 0 1 2010 = some out) ∧
     ∀ out : PyHeap × Nat, mapdCleanMergeExec demoHeap 0 1 2010 = some out →
       out.1.mem 0 = some (.maT [demoMaPremRow]) ∧
       out.1.mem 1 = some (.mapdRawT [demoMapdRawRow]) ∧
       out.1.mem out.2 = some
         (.planPremT (mapd_clean_merge [demoMaPremRow] [demoMapdRawRow] 2010))) :=
  ⟨rfl, rfl,
   c9_no_input_mutation demoHeap 0 1 2010 [demoMaPremRow] [demoMapdRawRow]
     rfl rfl (by decide) (by decide)⟩

end MAData
